import Mathlib

/-
Verification development for the nasa-precip-engine core of GeoLens-Europa.

The Python modules under src/nasa-precip-engine/src are shallowly embedded:
  - cache.py     : PrecipCube, PRECIP_CACHE dict, get/set/clear/stats
  - imerg_client.py : authenticate, load_imerg_cube, accumulate_precip,
                      get_precip_at_point
  - h3_mapping.py: sample_precip_for_h3, validate_h3_indices
  - main.py      : the per-window source/cached flag updates of
                   get_precipitation_for_h3
  - config.py    : the constants used by the above

Python dicts are embedded as insertion-ordered association lists (a dict
preserves insertion order; overwriting a key keeps its position).  Wall-clock
time (time.time()) and precipitation values (floats) are embedded as rationals.
NaN cells of an xarray DataArray are embedded as `none : Option Rat`.
-/

set_option maxHeartbeats 1000000
set_option maxRecDepth 100000

deriving instance DecidableEq for Except

namespace NasaPrecip

/-! ## Python dict embedding (insertion-ordered association list) -/
/-- Lookup of a key in a Python dict, embedded as an association list. -/
def dlookup {α β : Type} [DecidableEq α] (k : α) : List (α × β) → Option β
  | [] => none
  | p :: ps => if p.1 = k then some p.2 else dlookup k ps

/-- Assignment `d[k] = v` on a Python dict: overwrite in place when the key is
present (keeping its position in iteration order), append otherwise. -/
def dinsert {α β : Type} [DecidableEq α] (k : α) (v : β) (l : List (α × β)) :
    List (α × β) :=
  match dlookup k l with
  | some _ => l.map (fun p => if p.1 = k then (k, v) else p)
  | none => l ++ [(k, v)]

/-- Deletion `del d[k]` on a Python dict. -/
def derase {α β : Type} [DecidableEq α] (k : α) (l : List (α × β)) :
    List (α × β) :=
  l.filter (fun p => decide (p.1 ≠ k))

/-! ## Configuration constants (src/nasa-precip-engine/src/config.py) -/
/-- config.py: `LAT_MIN = 35.0`. -/
def LAT_MIN : ℚ := 35

/-- config.py: `LAT_MAX = 72.0`. -/
def LAT_MAX : ℚ := 72

/-- config.py: `LON_MIN = -10.0`. -/
def LON_MIN : ℚ := -10

/-- config.py: `LON_MAX = 40.0`. -/
def LON_MAX : ℚ := 40

/-- config.py: `CACHE_MAX_SIZE = 50`. -/
def CACHE_MAX_SIZE : ℕ := 50

/-- config.py: `CACHE_TTL_SECONDS = 1800`. -/
def CACHE_TTL_SECONDS : ℚ := 1800

/-! ## DataArray embedding

An xarray `DataArray` with dims `[lat, lon]`: coordinate vectors plus a row
for every latitude, each row holding one cell per longitude.  A cell is
`Option ℚ`; `none` embeds a NaN (missing) float value. -/
structure DataArray where
  lats : List ℚ
  lons : List ℚ
  vals : List (List (Option ℚ))

deriving DecidableEq

/-- An IMERG granule opened as an xarray Dataset, restricted to the two
variables imerg_client.py reads: `precipitationCal` (preferred) and
`precipitation` (uncalibrated fallback). `none` means the variable is absent
from the granule. -/
structure Dataset where
  precipitationCal : Option DataArray
  precipitation : Option DataArray

deriving DecidableEq

/-! ## Datetime and the cache key (src/nasa-precip-engine/src/cache.py) -/
/-- The fields of a Python `datetime` that the embedded code inspects. -/
structure Datetime where
  year : ℤ
  month : ℤ
  day : ℤ
  hour : ℤ
  minute : ℤ

deriving DecidableEq

/-- Zero padding to two digits, as `%m` / `%d` of `strftime` produce. -/
def pad2 (n : ℤ) : String :=
  if 0 ≤ n ∧ n < 10 then "0" ++ toString n else toString n

/-- `t_ref.strftime('%Y-%m-%d')` from `get_cache_key` (years of interest have
four digits, so `%Y` needs no padding). -/
def strftime_date (t : Datetime) : String :=
  toString t.year ++ "-" ++ pad2 t.month ++ "-" ++ pad2 t.day

/-- cache.py `get_cache_key`: the key is the reference time coarsened to its
calendar day, paired with the window length in hours. -/
def get_cache_key (t_ref : Datetime) (hours : ℤ) : String × ℤ :=
  (strftime_date t_ref, hours)

/-- cache.py `PrecipCube`: a cached accumulated grid with its provenance.
`cached_at` is the `time.time()` timestamp of the insert. -/
structure PrecipCube where
  data : DataArray
  t_ref : Datetime
  hours : ℤ
  cached_at : ℚ
  source : String

deriving DecidableEq

/-- cache.py `PrecipCube.is_expired`: `(time.time() - self.cached_at) >
CACHE_TTL_SECONDS`, with the current wall-clock time passed explicitly. -/
def PrecipCube.is_expired (c : PrecipCube) (now : ℚ) : Bool :=
  decide (CACHE_TTL_SECONDS < now - c.cached_at)

/-- The module-level dict `PRECIP_CACHE`. -/
abbrev Cache := List ((String × ℤ) × PrecipCube)

/-- The fold step of Python `min(keys, key=lambda k: PRECIP_CACHE[k].cached_at)`:
keep the earlier entry on ties, as `min` does. -/
def olderEntry (best q : (String × ℤ) × PrecipCube) : (String × ℤ) × PrecipCube :=
  if q.2.cached_at < best.2.cached_at then q else best

/-- The entry selected by `min(PRECIP_CACHE.keys(), key=... cached_at)`:
the first entry in iteration order with the smallest `cached_at`
(`none` on an empty dict, where Python `min` would raise). -/
def oldestEntry : Cache → Option ((String × ℤ) × PrecipCube)
  | [] => none
  | p :: ps => some (ps.foldl olderEntry p)

/-- cache.py `get_cached_cube`, with `time.time()` passed explicitly as `now`.
Returns the looked-up cube (if present and unexpired) together with the cache
state after the lookup's lazy expiry deletion. -/
def get_cached_cube (now : ℚ) (t_ref : Datetime) (hours : ℤ) (cache : Cache) :
    Option PrecipCube × Cache :=
  let key := get_cache_key t_ref hours
  match dlookup key cache with
  | none => (none, cache)
  | some cube =>
    if cube.is_expired now then (none, derase key cache) else (some cube, cache)

/-- cache.py `set_cached_cube`, with `time.time()` passed explicitly as `now`:
when the dict already holds at least `CACHE_MAX_SIZE` entries, the entry with
the smallest `cached_at` is deleted (whether or not the incoming key is
already present), then the cube is stored under the coarsened key. -/
def set_cached_cube (now : ℚ) (t_ref : Datetime) (hours : ℤ) (data : DataArray)
    (source : String) (cache : Cache) : Cache :=
  let key := get_cache_key t_ref hours
  let cache1 :=
    if CACHE_MAX_SIZE ≤ cache.length then
      match oldestEntry cache with
      | some p => derase p.1 cache
      | none => cache
    else cache
  dinsert key (PrecipCube.mk data t_ref hours now source) cache1

/-- cache.py `clear_cache`. -/
def clear_cache : Cache := []

/-! ## Granule accumulation (src/nasa-precip-engine/src/imerg_client.py) -/
/-- The failure conditions raised by `load_imerg_cube` / `accumulate_precip`.
In the Python source each is a `ValueError` or `RuntimeError` whose message
identifies the condition; `load_imerg_cube`'s outer `except` re-raises every
failure wrapped in a `RuntimeError` that keeps the message, so the condition
remains observable and is tracked here directly. -/
inductive ImergError where
  /-- ValueError "No datasets provided for accumulation" (accumulate_precip). -/
  | noDatasets
  /-- ValueError "No valid precipitation data extracted from granules". -/
  | noValidPrecip
  /-- ValueError "No IMERG data available for time window ..." — the
  condition the design spec names `NoDataAvailableError`. -/
  | noDataAvailable
  /-- RuntimeError "Failed to open any granules as xarray Datasets". -/
  | noDatasetsOpened

deriving DecidableEq

/-- imerg_client.py: `precip_rate.sel(lat=slice(LAT_MIN, LAT_MAX),
lon=slice(LON_MIN, LON_MAX))` — label slicing keeps exactly the coordinates
inside the closed Europe bounding box (coordinates ascending). -/
def DataArray.sel_europe (a : DataArray) : DataArray :=
  { lats := a.lats.filter fun l => decide (LAT_MIN ≤ l ∧ l ≤ LAT_MAX)
    lons := a.lons.filter fun l => decide (LON_MIN ≤ l ∧ l ≤ LON_MAX)
    vals :=
      ((a.lats.zip a.vals).filter fun p =>
          decide (LAT_MIN ≤ p.1 ∧ p.1 ≤ LAT_MAX)).map fun p =>
        ((a.lons.zip p.2).filter fun q =>
            decide (LON_MIN ≤ q.1 ∧ q.1 ≤ LON_MAX)).map Prod.snd }

/-- imerg_client.py: `precip_rate_subset * 0.5` — rate (mm/hr) to amount (mm)
for the 30-minute granule interval.  Multiplying a NaN keeps it NaN. -/
def DataArray.scale_half (a : DataArray) : DataArray :=
  { a with vals := a.vals.map fun row => row.map fun c => c.map fun x => x * (1 / 2) }

/-- Cell-level addition of `xr.concat(...).sum(dim='time')`: xarray sums with
`skipna=True`, so a NaN cell contributes nothing and the sum is NaN only when
every summand is NaN. -/
def cellAdd : Option ℚ → Option ℚ → Option ℚ
  | some x, some y => some (x + y)
  | some x, none => some x
  | none, some y => some y
  | none, none => none

/-- imerg_client.py: `xr.concat(precip_arrays, dim='time')` followed by
`.sum(dim='time')` — an elementwise NaN-skipping sum across the granule
arrays, keeping the coordinates of the stack. -/
def sum_time : List DataArray → DataArray
  | [] => DataArray.mk [] [] []
  | a :: rest =>
    { lats := a.lats
      lons := a.lons
      vals := rest.foldl (fun acc b => List.zipWith (List.zipWith cellAdd) acc b.vals) a.vals }

/-- imerg_client.py: `precip_total.fillna(0.0)` — every NaN cell becomes the
given value; defined cells are unchanged. -/
def DataArray.fillna (a : DataArray) (v : ℚ) : DataArray :=
  { a with vals := a.vals.map fun row => row.map fun c => some (c.getD v) }

/-- The per-granule body of `accumulate_precip`'s loop: choose
`precipitationCal`, falling back to `precipitation`; skip the granule
(`continue`) when neither variable exists; subset to Europe and convert the
rate to a 30-minute amount. -/
def extract_amount (ds : Dataset) : Option DataArray :=
  match ds.precipitationCal with
  | some arr => some arr.sel_europe.scale_half
  | none =>
    match ds.precipitation with
    | some arr => some arr.sel_europe.scale_half
    | none => none

/-- imerg_client.py `accumulate_precip`.  The `hours` argument is accepted for
validation/logging only, as in the source.  The embedded granule arrays are
two-dimensional, so the final `squeeze` branch (taken only on unexpected extra
dims) is not exercised. -/
def accumulate_precip (datasets : List Dataset) (hours : ℤ) :
    Except ImergError DataArray :=
  if datasets.isEmpty then .error .noDatasets
  else
    let precip_arrays := datasets.filterMap extract_amount
    if precip_arrays.isEmpty then .error .noValidPrecip
    else .ok ((sum_time precip_arrays).fillna 0)

/-- imerg_client.py `load_imerg_cube`, with the two `earthaccess.search_data`
calls replaced by their results: `lateResults` for the Late Run product and
`earlyResults` for the Early Run product.  Each search hit carries the granule
opened as a Dataset, or `none` when `xr.open_dataset` would fail for it.
Returns the result paired with whether the fallback (Early) tier was queried.
The `authenticate()` call and the network plumbing are modelled elsewhere;
every failure is re-raised by the outer `except` as a `RuntimeError` keeping
the message, tracked by the `ImergError` constructors. -/
def load_imerg_cube (t_ref : Datetime) (hours : ℤ)
    (lateResults earlyResults : List (Option Dataset)) (use_early : Bool) :
    Except ImergError (DataArray × String) × Bool :=
  let queriedEarly := lateResults.isEmpty && use_early
  let results := if lateResults.isEmpty && use_early then earlyResults else lateResults
  let source_name := if lateResults.isEmpty && use_early then "IMERG-Early" else "IMERG-Late"
  if results.isEmpty then (.error .noDataAvailable, queriedEarly)
  else
    let datasets := results.filterMap id
    if datasets.isEmpty then (.error .noDatasetsOpened, queriedEarly)
    else
      match accumulate_precip datasets hours with
      | .error e => (.error e, queriedEarly)
      | .ok grid => (.ok (grid, source_name), queriedEarly)

/-! ## Point sampling and H3 mapping
(src/nasa-precip-engine/src/imerg_client.py, h3_mapping.py) -/
/-- The index chosen by `sel(..., method='nearest')` along one coordinate
axis: the first index minimizing the absolute distance to the target
(`none` on an empty coordinate vector, where the selection raises). -/
def nearest_idx_aux (x : ℚ) : List ℚ → ℕ → ℕ → ℚ → ℕ
  | [], _, bestIdx, _ => bestIdx
  | c :: cs, i, bestIdx, bestCoord =>
    if |c - x| < |bestCoord - x| then nearest_idx_aux x cs (i + 1) i c
    else nearest_idx_aux x cs (i + 1) bestIdx bestCoord

/-- Nearest-neighbor index selection along one axis; see `nearest_idx_aux`. -/
def nearest_idx (coords : List ℚ) (x : ℚ) : Option ℕ :=
  match coords with
  | [] => none
  | c :: cs => some (nearest_idx_aux x cs 1 0 c)

/-- imerg_client.py `get_precip_at_point`: nearest-neighbor selection, then
`max(0.0, value)`; any KeyError/IndexError/ValueError from the selection is
caught and turned into `0.0`.  A NaN cell also yields `0.0`, since Python's
`max(0.0, nan)` is `0.0`. -/
def get_precip_at_point (precip_data : DataArray) (lat lon : ℚ) : ℚ :=
  match nearest_idx precip_data.lats lat, nearest_idx precip_data.lons lon with
  | some i, some j =>
    match (precip_data.vals.get? i).bind fun row => row.get? j with
    | some (some v) => max 0 v
    | some none => 0
    | none => 0
  | _, _ => 0

/-- The loop body of h3_mapping.py `sample_precip_for_h3`: resolve the cell's
centroid through the external `h3.h3_to_geo` resolver (the oracle `geo`;
`none` embeds the call raising) and sample, or fall back to a `0.0` entry
when resolution raised. -/
def sampleStep (geo : String → Option (ℚ × ℚ)) (precip_data : DataArray)
    (results : List (String × ℚ)) (idx : String) : List (String × ℚ) :=
  match geo idx with
  | some (lat, lon) => dinsert idx (get_precip_at_point precip_data lat lon) results
  | none => dinsert idx 0 results

/-- h3_mapping.py `sample_precip_for_h3`: the empty-input early return, then
the per-cell loop accumulating the results dict. -/
def sample_precip_for_h3 (geo : String → Option (ℚ × ℚ))
    (precip_data : DataArray) (h3_indices : List String) :
    List (String × ℚ) :=
  if h3_indices.isEmpty then []
  else h3_indices.foldl (sampleStep geo precip_data) []

/-- The value `sample_precip_for_h3` records for one cell identifier. -/
def sampleValue (geo : String → Option (ℚ × ℚ)) (precip_data : DataArray)
    (idx : String) : ℚ :=
  match geo idx with
  | some (lat, lon) => get_precip_at_point precip_data lat lon
  | none => 0

/-- h3_mapping.py `validate_h3_indices`, with the external `h3.h3_is_valid`
predicate passed as the oracle `isValid`.  The `ValueError` message is the
condition the design spec names `NoValidIdentifiersError`. -/
def validate_h3_indices (isValid : String → Bool) (h3_indices : List String) :
    Except String (List String) :=
  let valid_indices := h3_indices.filter isValid
  if valid_indices.isEmpty then .error "No valid H3 indices provided"
  else .ok valid_indices

/-! ## Orchestrator response flags (src/nasa-precip-engine/src/main.py) -/
/-- How one successfully processed window of `get_precipitation_for_h3` was
served: a cache hit carrying the cached cube's source, or a cache miss served
by `load_imerg_cube` carrying the loader's source. -/
inductive WindowOutcome where
  | hit (src : String)
  | miss (src : String)

deriving DecidableEq

/-- The source tier a window was served from. -/
def outcomeSource : WindowOutcome → String
  | .hit s => s
  | .miss s => s

/-- Whether a window was served from the cache. -/
def outcomeCached : WindowOutcome → Bool
  | .hit _ => true
  | .miss _ => false

/-- main.py `get_precipitation_for_h3`, per-window flag update: on a cache
hit `source_name = cube.source; cached = True`; on a miss `source_name` comes
from `load_imerg_cube` and `cached` is left unchanged. -/
def stepFlags (st : String × Bool) (o : WindowOutcome) : String × Bool :=
  match o with
  | .hit s => (s, true)
  | .miss s => (s, st.2)

/-- The top-level `(source, cached)` pair of the response after processing the
requested windows in order, starting from `source_name = "unknown";
cached = False`. -/
def responseFlags (outcomes : List WindowOutcome) : String × Bool :=
  outcomes.foldl stepFlags ("unknown", false)

/-! ## Authentication (src/nasa-precip-engine/src/imerg_client.py) -/
/-- The outcome `earthaccess.login` would have if invoked. -/
inductive LoginOutcome where
  | ok
  | fail

deriving DecidableEq

/-- What one call to `authenticate()` did: the new value of the module-global
`_auth_initialized` flag, whether the call performed the credential exchange
(`earthaccess.login`), and whether it raised. -/
structure AuthResult where
  flag : Bool
  exchanged : Bool
  raised : Bool

deriving DecidableEq

/-- imerg_client.py `authenticate`: return immediately when
`_auth_initialized` is set; otherwise perform the exchange, setting the flag
only on success and re-raising on failure. -/
def authenticate (flag : Bool) (login : LoginOutcome) : AuthResult :=
  if flag then ⟨true, false, false⟩
  else
    match login with
    | .ok => ⟨true, true, false⟩
    | .fail => ⟨false, true, true⟩

/-- The number of credential exchanges a sequence of `authenticate()` calls
performs, threading the `_auth_initialized` flag through the calls. -/
def authExchangeCount (flag : Bool) : List LoginOutcome → ℕ
  | [] => 0
  | l :: ls =>
    let r := authenticate flag l
    (if r.exchanged then 1 else 0) + authExchangeCount r.flag ls

/-- An example validity oracle for the C7 witness: only single-character
identifiers are well-formed. -/
def isValidW : String → Bool := fun s => s.length == 1

/-- A synthetic granule whose rate is 2.0 mm/hr at the single coordinate
(45°N, 10°E). -/
def granule_two : Dataset := ⟨some ⟨[45], [10], [[some 2]]⟩, none⟩

/-- A synthetic granule whose rate is 4.0 mm/hr at the same coordinate. -/
def granule_four : Dataset := ⟨some ⟨[45], [10], [[some 4]]⟩, none⟩

/-- An empty accumulated grid used as a placeholder payload in cache
scenarios (the cache never inspects the stored array). -/
def demo_grid : DataArray := ⟨[], [], []⟩

/-- Fifty pairwise distinct reference days for filling the cache. -/
def demo_dt (i : ℕ) : Datetime :=
  ⟨2024, 1 + ((i / 28 : ℕ) : ℤ), 1 + ((i % 28 : ℕ) : ℤ), 0, 0⟩

/-- A cache filled to `CACHE_MAX_SIZE` by fifty stores with distinct keys at
times 0, 1, ..., 49. -/
def demoCache : Cache :=
  (List.range 50).foldl
    (fun c (i : ℕ) => set_cached_cube (i : ℚ) (demo_dt i) 24 demo_grid "IMERG-Late" c) []

/-- A resolver for the C6 witness: cell "a" resolves to (45°N, 10°E); any
other identifier raises. -/
def geoW : String → Option (ℚ × ℚ) := fun s => if s = "a" then some (45, 10) else none

/-- A small grid for the C6 witness. -/
def gridW : DataArray := ⟨[45], [10], [[some 2]]⟩

/-! ## Non-negativity of accumulated grids (C4) -/
/-- A cell is non-negative when its defined value is (a missing cell counts
as 0, matching the 0.0 it will be substituted with). -/
abbrev OptNonneg (c : Option ℚ) : Prop := 0 ≤ c.getD 0

/-- Every cell of a value matrix is non-negative. -/
abbrev ValsNonneg (vss : List (List (Option ℚ))) : Prop :=
  ∀ row ∈ vss, ∀ c ∈ row, OptNonneg c

/-- Every cell of an array is non-negative. -/
abbrev DataArray.Nonneg (a : DataArray) : Prop := ValsNonneg a.vals

/-- Non-negativity of an optional variable (trivial when absent). -/
def OptArrNonneg : Option DataArray → Prop
  | some a => a.Nonneg
  | none => True

instance (o : Option DataArray) : Decidable (OptArrNonneg o) :=
  match o with
  | some a => inferInstanceAs (Decidable (ValsNonneg a.vals))
  | none => isTrue trivial

/-- Every precipitation value carried by a granule is non-negative. -/
abbrev Dataset.Nonneg (ds : Dataset) : Prop :=
  OptArrNonneg ds.precipitationCal ∧ OptArrNonneg ds.precipitation

/-- The cell of an array at a row/column index pair (`none` when the index
is out of range). -/
def cellAt (a : DataArray) (i j : ℕ) : Option (Option ℚ) :=
  a.vals[i]?.bind fun row => row[j]?

/-- A synthetic granule carrying a negative rate value (as an undecoded fill
value would be). -/
def granule_negative : Dataset := ⟨some ⟨[45], [10], [[some (-2)]]⟩, none⟩

/-! ## Theorems -/

theorem dlookup_map_replace_self {α β : Type} [DecidableEq α] (k : α) (v : β)
    (l : List (α × β)) (h : (dlookup k l).isSome) :
    dlookup k (l.map (fun p => if p.1 = k then (k, v) else p)) = some v := by
  induction l with
  | nil => simp [dlookup] at h
  | cons p ps ih =>
    by_cases hp : p.1 = k
    · simp [dlookup, hp]
    · simp only [dlookup, if_neg hp, Option.isSome] at h
      simp only [List.map_cons, if_neg hp, dlookup, if_neg hp]
      exact ih h

theorem dlookup_map_replace_ne {α β : Type} [DecidableEq α] {k k' : α} (v : β)
    (l : List (α × β)) (hne : k' ≠ k) :
    dlookup k' (l.map (fun p => if p.1 = k then (k, v) else p)) =
      dlookup k' l := by
  induction l with
  | nil => rfl
  | cons p ps ih =>
    by_cases hp : p.1 = k
    · have h1 : ¬ k = k' := fun h => hne h.symm
      have h2 : ¬ p.1 = k' := fun h => hne (h.symm.trans hp)
      simp only [List.map_cons, if_pos hp, dlookup, if_neg h1, if_neg h2]
      exact ih
    · by_cases hp' : p.1 = k'
      · simp [dlookup, List.map_cons, if_neg hp, hp', hne]
      · simp only [List.map_cons, if_neg hp, dlookup, if_neg hp']
        exact ih

theorem dlookup_append_single_self {α β : Type} [DecidableEq α] (k : α) (v : β)
    (l : List (α × β)) (h : dlookup k l = none) :
    dlookup k (l ++ [(k, v)]) = some v := by
  induction l with
  | nil => simp [dlookup]
  | cons p ps ih =>
    by_cases hp : p.1 = k
    · simp [dlookup, hp] at h
    · simp only [dlookup, if_neg hp] at h
      simp only [List.cons_append, dlookup, if_neg hp]
      exact ih h

theorem dlookup_append_single_ne {α β : Type} [DecidableEq α] {k k' : α}
    (v : β) (l : List (α × β)) (hne : k' ≠ k) :
    dlookup k' (l ++ [(k, v)]) = dlookup k' l := by
  have hkk : ¬ k = k' := fun h => hne h.symm
  induction l with
  | nil => simp [dlookup, hkk]
  | cons p ps ih =>
    by_cases hp : p.1 = k'
    · simp [dlookup, hp]
    · simp only [List.cons_append, dlookup, if_neg hp]
      exact ih

theorem dlookup_dinsert_self {α β : Type} [DecidableEq α] (k : α) (v : β)
    (l : List (α × β)) : dlookup k (dinsert k v l) = some v := by
  unfold dinsert
  cases h : dlookup k l with
  | none => exact dlookup_append_single_self k v l h
  | some w => exact dlookup_map_replace_self k v l (by simp [h])

theorem dlookup_dinsert_ne {α β : Type} [DecidableEq α] {k k' : α} (v : β)
    (l : List (α × β)) (hne : k' ≠ k) :
    dlookup k' (dinsert k v l) = dlookup k' l := by
  unfold dinsert
  cases h : dlookup k l with
  | none => exact dlookup_append_single_ne v l hne
  | some w => exact dlookup_map_replace_ne v l hne

theorem dlookup_derase_self {α β : Type} [DecidableEq α] (k : α)
    (l : List (α × β)) : dlookup k (derase k l) = none := by
  induction l with
  | nil => rfl
  | cons p ps ih =>
    by_cases hp : p.1 = k
    · simpa [derase, List.filter_cons, hp] using ih
    · simpa [derase, List.filter_cons, hp, dlookup] using ih

theorem dlookup_derase_ne {α β : Type} [DecidableEq α] {k k' : α}
    (l : List (α × β)) (hne : k' ≠ k) :
    dlookup k' (derase k l) = dlookup k' l := by
  have hkk : ¬ k = k' := fun h => hne h.symm
  induction l with
  | nil => rfl
  | cons p ps ih =>
    by_cases hp : p.1 = k
    · have hp' : ¬ p.1 = k' := fun h => hne (h.symm.trans hp)
      simpa [derase, List.filter_cons, hp, dlookup, hp', hkk] using ih
    · by_cases hp' : p.1 = k'
      · simp [derase, List.filter_cons, hp, dlookup, hp', hne]
      · simpa [derase, List.filter_cons, hp, dlookup, hp', hkk] using ih

theorem length_dinsert_le {α β : Type} [DecidableEq α] (k : α) (v : β)
    (l : List (α × β)) : (dinsert k v l).length ≤ l.length + 1 := by
  unfold dinsert
  cases dlookup k l with
  | some w => simp
  | none => simp

theorem length_derase_lt {α β : Type} [DecidableEq α] {k : α}
    {l : List (α × β)} (h : (dlookup k l).isSome) :
    (derase k l).length < l.length := by
  induction l with
  | nil => simp [dlookup] at h
  | cons p ps ih =>
    by_cases hp : p.1 = k
    · have hle : (derase k ps).length ≤ ps.length := List.length_filter_le _ _
      have : derase k (p :: ps) = derase k ps := by
        simp [derase, List.filter_cons, hp]
      rw [this]
      simpa using Nat.lt_succ_of_le hle
    · simp only [dlookup, if_neg hp, Option.isSome] at h
      have : derase k (p :: ps) = p :: derase k ps := by
        simp [derase, List.filter_cons, hp]
      rw [this]
      simpa using Nat.succ_lt_succ (ih h)

theorem foldl_olderEntry_mem (ps : List ((String × ℤ) × PrecipCube))
    (p : (String × ℤ) × PrecipCube) :
    ps.foldl olderEntry p = p ∨ ps.foldl olderEntry p ∈ ps := by
  induction ps generalizing p with
  | nil => exact Or.inl rfl
  | cons q qs ih =>
    simp only [List.foldl_cons]
    have he : olderEntry p q = q ∨ olderEntry p q = p := by
      unfold olderEntry
      by_cases hq : q.2.cached_at < p.2.cached_at
      · rw [if_pos hq]; exact Or.inl rfl
      · rw [if_neg hq]; exact Or.inr rfl
    rcases ih (olderEntry p q) with h | h
    · rcases he with h2 | h2
      · right; rw [h, h2]; exact List.mem_cons_self q qs
      · left; rw [h, h2]
    · exact Or.inr (List.mem_cons_of_mem q h)

theorem foldl_olderEntry_le (ps : List ((String × ℤ) × PrecipCube))
    (p : (String × ℤ) × PrecipCube) :
    (ps.foldl olderEntry p).2.cached_at ≤ p.2.cached_at ∧
      ∀ q ∈ ps, (ps.foldl olderEntry p).2.cached_at ≤ q.2.cached_at := by
  induction ps generalizing p with
  | nil => exact ⟨le_refl _, by simp⟩
  | cons q qs ih =>
    simp only [List.foldl_cons]
    obtain ⟨h1, h2⟩ := ih (olderEntry p q)
    have hle : (olderEntry p q).2.cached_at ≤ p.2.cached_at ∧
        (olderEntry p q).2.cached_at ≤ q.2.cached_at := by
      unfold olderEntry
      by_cases hq : q.2.cached_at < p.2.cached_at
      · rw [if_pos hq]; exact ⟨le_of_lt hq, le_refl _⟩
      · rw [if_neg hq]; exact ⟨le_refl _, le_of_not_lt hq⟩
    refine ⟨le_trans h1 hle.1, ?_⟩
    intro r hr
    rcases List.mem_cons.mp hr with hm | hm
    · rw [hm]; exact le_trans h1 hle.2
    · exact h2 r hm

theorem oldestEntry_mem {cache : Cache} {p : (String × ℤ) × PrecipCube}
    (h : oldestEntry cache = some p) : p ∈ cache := by
  cases cache with
  | nil => simp [oldestEntry] at h
  | cons q qs =>
    simp only [oldestEntry, Option.some.injEq] at h
    rw [← h]
    rcases foldl_olderEntry_mem qs q with hm | hm
    · rw [hm]; exact List.mem_cons_self q qs
    · exact List.mem_cons_of_mem q hm

theorem oldestEntry_le {cache : Cache} {p : (String × ℤ) × PrecipCube}
    (h : oldestEntry cache = some p) :
    ∀ q ∈ cache, p.2.cached_at ≤ q.2.cached_at := by
  cases cache with
  | nil => simp [oldestEntry] at h
  | cons q qs =>
    simp only [oldestEntry, Option.some.injEq] at h
    intro r hr
    obtain ⟨h1, h2⟩ := foldl_olderEntry_le qs q
    rw [← h]
    rcases List.mem_cons.mp hr with hm | hm
    · rw [hm]; exact h1
    · exact h2 r hm

theorem oldestEntry_isSome {cache : Cache} (h : cache ≠ []) :
    (oldestEntry cache).isSome := by
  cases cache with
  | nil => exact absurd rfl h
  | cons q qs => simp [oldestEntry]

/-- Membership of a pair's key in the dict implies a successful lookup of
some value at that key. -/
theorem dlookup_isSome_of_mem {α β : Type} [DecidableEq α]
    {p : α × β} {l : List (α × β)} (h : p ∈ l) : (dlookup p.1 l).isSome := by
  induction l with
  | nil => simp at h
  | cons q qs ih =>
    rcases List.mem_cons.mp h with hq | hq
    · subst hq; simp [dlookup]
    · by_cases hqp : q.1 = p.1
      · simp [dlookup, hqp]
      · simpa [dlookup, hqp] using ih hq

/-! ## Helper lemmas -/
theorem authExchangeCount_of_flag_set (ls : List LoginOutcome) :
    authExchangeCount true ls = 0 := by
  induction ls with
  | nil => rfl
  | cons l ls ih => simpa [authExchangeCount, authenticate] using ih

theorem foldl_stepFlags_spec (outcomes : List WindowOutcome)
    (o : WindowOutcome) (st : String × Bool)
    (h : outcomes.getLast? = some o) :
    (outcomes.foldl stepFlags st).1 = outcomeSource o ∧
      (outcomes.foldl stepFlags st).2 = (st.2 || outcomes.any outcomeCached) := by
  induction outcomes generalizing st with
  | nil => simp at h
  | cons w ws ih =>
    cases ws with
    | nil =>
      have hwo : w = o := by simpa using h
      subst hwo
      cases w with
      | hit s => simp [stepFlags, outcomeSource, outcomeCached, List.any_cons]
      | miss s => simp [stepFlags, outcomeSource, outcomeCached, List.any_cons]
    | cons w2 ws2 =>
      have hlast : (w2 :: ws2).getLast? = some o := by
        rwa [List.getLast?_cons_cons] at h
      obtain ⟨h1, h2⟩ := ih (stepFlags st w) hlast
      refine ⟨h1, ?_⟩
      rw [List.foldl_cons, h2]
      cases w with
      | hit s => simp [stepFlags, outcomeCached, List.any_cons]
      | miss s => simp [stepFlags, outcomeCached, List.any_cons]

/-! ## Claim theorems -/
/-- C9: authenticate is idempotent — the first call performs the credential
exchange and sets the process-wide flag; once the flag is set every later
call returns immediately without an exchange, so a call sequence whose first
call succeeds performs exactly one exchange. -/
theorem authenticate_idempotent (rest : List LoginOutcome) :
    authenticate false .ok = ⟨true, true, false⟩ ∧
    (∀ l, authenticate true l = ⟨true, false, false⟩) ∧
    authExchangeCount false (.ok :: rest) = 1 := by
  refine ⟨rfl, fun l => rfl, ?_⟩
  simp [authExchangeCount, authenticate, authExchangeCount_of_flag_set]

/-- C10: when the credential exchange raises, the process-wide flag stays
unset, so any subsequent call attempts the exchange again instead of
returning immediately. -/
theorem authenticate_failure_keeps_flag_unset :
    authenticate false .fail = ⟨false, true, true⟩ ∧
    (∀ l, (authenticate false l).exchanged = true) := by
  refine ⟨rfl, fun l => ?_⟩
  cases l <;> rfl

/-- C8 counterexample: with a cache hit on the first window and a miss on the
second, the response reports `cached = true` although the last window
processed was not served from the cache — the `cached` flag does not reflect
the last window. -/
theorem responseFlags_last_window_counterexample :
    responseFlags [.hit "IMERG-Late", .miss "IMERG-Early"] = ("IMERG-Early", true) ∧
    outcomeCached (.miss "IMERG-Early") = false := by
  exact ⟨rfl, rfl⟩

/-- C8 (amended): when both windows are processed, the top-level `source`
flag reflects the last window processed, while the top-level `cached` flag is
true iff at least one of the processed windows was served from the cache. -/
theorem responseFlags_spec (outcomes : List WindowOutcome) (o : WindowOutcome)
    (h : outcomes.getLast? = some o) :
    (responseFlags outcomes).1 = outcomeSource o ∧
    (responseFlags outcomes).2 = outcomes.any outcomeCached := by
  simpa [responseFlags] using foldl_stepFlags_spec outcomes o ("unknown", false) h

/-- C8 witness: the amended statement evaluated on a hit followed by a miss. -/
theorem responseFlags_spec_witness :
    ([WindowOutcome.hit "IMERG-Late", WindowOutcome.miss "IMERG-Early"].getLast? =
        some (WindowOutcome.miss "IMERG-Early")) ∧
    (responseFlags [.hit "IMERG-Late", .miss "IMERG-Early"]).1 =
        outcomeSource (.miss "IMERG-Early") ∧
    (responseFlags [.hit "IMERG-Late", .miss "IMERG-Early"]).2 =
        [WindowOutcome.hit "IMERG-Late", WindowOutcome.miss "IMERG-Early"].any outcomeCached :=
  ⟨rfl, responseFlags_spec [.hit "IMERG-Late", .miss "IMERG-Early"]
    (.miss "IMERG-Early") rfl⟩

/-- C7: validation returns exactly the well-formed identifiers of the input
in their original order (a sublist whose members are precisely the valid
input members), and fails iff no identifier in the list is well-formed. -/
theorem validate_h3_indices_spec (isValid : String → Bool) (ids : List String) :
    (∀ l, validate_h3_indices isValid ids = .ok l →
       l.Sublist ids ∧ ∀ idx, idx ∈ l ↔ (idx ∈ ids ∧ isValid idx = true)) ∧
    ((∃ e, validate_h3_indices isValid ids = .error e) ↔
       ∀ idx ∈ ids, isValid idx = false) := by
  unfold validate_h3_indices
  by_cases hemp : (ids.filter isValid).isEmpty
  · rw [if_pos hemp]
    have hnil : ids.filter isValid = [] := List.isEmpty_iff.mp hemp
    constructor
    · intro l hl
      exact absurd hl (by simp)
    · constructor
      · intro _ idx hidx
        by_contra hv
        have : idx ∈ ids.filter isValid :=
          List.mem_filter.mpr ⟨hidx, by simpa using hv⟩
        simp [hnil] at this
      · intro _
        exact ⟨"No valid H3 indices provided", rfl⟩
  · rw [if_neg hemp]
    constructor
    · intro l hl
      have hleq : l = ids.filter isValid := by
        simpa using hl.symm
      subst hleq
      exact ⟨List.filter_sublist ids, fun idx => by
        simp [List.mem_filter]⟩
    · constructor
      · rintro ⟨e, he⟩
        exact absurd he (by simp)
      · intro hall
        exact absurd (List.isEmpty_iff.mpr (List.filter_eq_nil_iff.mpr
          (by intro a ha; simp [hall a ha]))) hemp

/-- C7 witness: the success half of the statement evaluated on a list with
one malformed entry. -/
theorem validate_h3_indices_spec_witness :
    (["a", "c"].Sublist ["a", "bb", "c"] ∧
      ∀ idx, idx ∈ ["a", "c"] ↔ (idx ∈ ["a", "bb", "c"] ∧ isValidW idx = true)) :=
  (validate_h3_indices_spec isValidW ["a", "bb", "c"]).1 ["a", "c"] rfl

/-- C3: with zero discoverable granules on either tier the load fails with
the no-data condition (the spec's `NoDataAvailableError`), and with the
fallback tier disallowed (`use_early = false`) a zero-granule primary search
fails without ever querying the fallback tier. -/
theorem load_imerg_cube_no_data (t : Datetime) (h : ℤ)
    (late early : List (Option Dataset)) (ue : Bool) (hl : late = []) :
    (early = [] →
       (load_imerg_cube t h late early ue).1 = .error .noDataAvailable) ∧
    ((load_imerg_cube t h late early false).1 = .error .noDataAvailable ∧
     (load_imerg_cube t h late early false).2 = false) := by
  subst hl
  refine ⟨fun he => ?_, ?_, ?_⟩
  · subst he
    cases ue <;> rfl
  · rfl
  · rfl

/-- C3 witness: the statement evaluated with both search results empty and
the fallback allowed. -/
theorem load_imerg_cube_no_data_witness :
    (([] : List (Option Dataset)) = [] ∧ ([] : List (Option Dataset)) = []) ∧
    (load_imerg_cube ⟨2024, 3, 15, 0, 0⟩ 24 [] [] true).1 = .error .noDataAvailable ∧
    (load_imerg_cube ⟨2024, 3, 15, 0, 0⟩ 24 [] [] false).1 = .error .noDataAvailable ∧
    (load_imerg_cube ⟨2024, 3, 15, 0, 0⟩ 24 [] [] false).2 = false := by
  have hsp := load_imerg_cube_no_data ⟨2024, 3, 15, 0, 0⟩ 24 [] [] true rfl
  exact ⟨⟨rfl, rfl⟩, hsp.1 rfl, hsp.2.1, hsp.2.2⟩

/-- C5: accumulating two granules with rates 2.0 and 4.0 mm/hr over identical
grid coordinates converts each rate to a 0.5-hour amount and sums them,
yielding exactly 2.0*0.5 + 4.0*0.5 = 3.0 mm at that coordinate. -/
theorem accumulate_two_granules_three_mm :
    accumulate_precip [granule_two, granule_four] 24 =
      .ok ⟨[45], [10], [[some 3]]⟩ := by
  unfold accumulate_precip
  norm_num [granule_two, granule_four, extract_amount, DataArray.sel_europe,
    DataArray.scale_half, sum_time, DataArray.fillna, cellAdd,
    LAT_MIN, LAT_MAX, LON_MIN, LON_MAX, List.filterMap_cons, List.filter_cons]

/-- C2: after storing grid `g` for `(t, w)` at time `c`, a lookup with the
same `(t, w)` returns exactly `g` at every time `x` with `c ≤ x ≤ c + TTL`
(the boundary `c + TTL` included), and returns nothing at every time
`x > c + TTL`. -/
theorem cache_roundtrip_ttl (cache : Cache) (t : Datetime) (hours : ℤ)
    (g : DataArray) (src : String) (c x : ℚ) :
    (c ≤ x → x ≤ c + CACHE_TTL_SECONDS →
       ((get_cached_cube x t hours (set_cached_cube c t hours g src cache)).1).map
         PrecipCube.data = some g) ∧
    (c + CACHE_TTL_SECONDS < x →
       (get_cached_cube x t hours (set_cached_cube c t hours g src cache)).1 = none) := by
  have hk : dlookup (get_cache_key t hours)
      (set_cached_cube c t hours g src cache) =
      some (PrecipCube.mk g t hours c src) := by
    unfold set_cached_cube
    exact dlookup_dinsert_self _ _ _
  constructor
  · intro hcx hx
    have hexp : (PrecipCube.mk g t hours c src).is_expired x = false := by
      simp only [PrecipCube.is_expired, decide_eq_false_iff_not, not_lt]
      linarith
    simp [get_cached_cube, hk, hexp]
  · intro hx
    have hexp : (PrecipCube.mk g t hours c src).is_expired x = true := by
      simp only [PrecipCube.is_expired, decide_eq_true_eq]
      linarith
    simp [get_cached_cube, hk, hexp]

/-- C2 witness: a store at time 0 followed by a lookup exactly at the TTL
boundary returns the stored grid. -/
theorem cache_roundtrip_ttl_witness :
    ((0 : ℚ) ≤ 1800 ∧ (1800 : ℚ) ≤ 0 + CACHE_TTL_SECONDS) ∧
    ((get_cached_cube 1800 ⟨2024, 3, 15, 6, 0⟩ 24
        (set_cached_cube 0 ⟨2024, 3, 15, 6, 0⟩ 24 demo_grid "IMERG-Late" [])).1).map
      PrecipCube.data = some demo_grid :=
  ⟨⟨by norm_num, by norm_num [CACHE_TTL_SECONDS]⟩,
   (cache_roundtrip_ttl [] ⟨2024, 3, 15, 6, 0⟩ 24 demo_grid "IMERG-Late" 0 1800).1
     (by norm_num) (by norm_num [CACHE_TTL_SECONDS])⟩

/-- C1 counterexample: with the cache full at `CACHE_MAX_SIZE` entries and
the stored key already present, `set_cached_cube` still evicts the oldest
entry — a different key disappears, refuting "store overwrites that entry
without evicting any other entry". -/
theorem set_cached_cube_overwrite_evicts_counterexample :
    demoCache.length = CACHE_MAX_SIZE ∧
    (dlookup (get_cache_key (demo_dt 1) 24) demoCache).isSome = true ∧
    (dlookup (get_cache_key (demo_dt 0) 24) demoCache).isSome = true ∧
    get_cache_key (demo_dt 0) 24 ≠ get_cache_key (demo_dt 1) 24 ∧
    dlookup (get_cache_key (demo_dt 0) 24)
      (set_cached_cube 100 (demo_dt 1) 24 demo_grid "IMERG-Late" demoCache) = none := by
  decide

/-- C1 (amended): a store into a cache holding fewer than `CACHE_MAX_SIZE`
entries inserts or overwrites without evicting; a store into a cache holding
exactly `CACHE_MAX_SIZE` entries first evicts the entry with the smallest
`cachedAt` among the entries present immediately before the insert — whether
or not the coarsened key is already present; and after any store from a
within-bounds state the cache holds at most `CACHE_MAX_SIZE` entries. -/
theorem set_cached_cube_spec (now : ℚ) (t : Datetime) (hours : ℤ)
    (g : DataArray) (src : String) (cache : Cache)
    (hlen : cache.length ≤ CACHE_MAX_SIZE) :
    (set_cached_cube now t hours g src cache).length ≤ CACHE_MAX_SIZE ∧
    dlookup (get_cache_key t hours) (set_cached_cube now t hours g src cache) =
      some (PrecipCube.mk g t hours now src) ∧
    (cache.length < CACHE_MAX_SIZE →
       ∀ k, k ≠ get_cache_key t hours →
         dlookup k (set_cached_cube now t hours g src cache) = dlookup k cache) ∧
    (cache.length = CACHE_MAX_SIZE →
       ∃ p ∈ cache, (∀ q ∈ cache, p.2.cached_at ≤ q.2.cached_at) ∧
         (p.1 ≠ get_cache_key t hours →
            dlookup p.1 (set_cached_cube now t hours g src cache) = none) ∧
         ∀ k, k ≠ get_cache_key t hours → k ≠ p.1 →
           dlookup k (set_cached_cube now t hours g src cache) = dlookup k cache) := by
  by_cases hfull : CACHE_MAX_SIZE ≤ cache.length
  · have hexact : cache.length = CACHE_MAX_SIZE := le_antisymm hlen hfull
    have hne : cache ≠ [] := by
      intro hnil
      rw [hnil] at hexact
      simp [CACHE_MAX_SIZE] at hexact
    obtain ⟨p, hp⟩ := Option.isSome_iff_exists.mp (oldestEntry_isSome hne)
    have hred : set_cached_cube now t hours g src cache =
        dinsert (get_cache_key t hours) (PrecipCube.mk g t hours now src)
          (derase p.1 cache) := by
      unfold set_cached_cube
      rw [if_pos hfull, hp]
    have hpmem : p ∈ cache := oldestEntry_mem hp
    have hdel : (derase p.1 cache).length < cache.length :=
      length_derase_lt (dlookup_isSome_of_mem hpmem)
    refine ⟨?_, ?_, ?_, ?_⟩
    · rw [hred]
      calc (dinsert (get_cache_key t hours) (PrecipCube.mk g t hours now src)
              (derase p.1 cache)).length
          ≤ (derase p.1 cache).length + 1 := length_dinsert_le _ _ _
        _ ≤ cache.length := hdel
        _ = CACHE_MAX_SIZE := hexact
    · rw [hred]
      exact dlookup_dinsert_self _ _ _
    · intro hlt
      exact absurd hexact (by omega)
    · intro _
      refine ⟨p, hpmem, oldestEntry_le hp, ?_, ?_⟩
      · intro hpk
        rw [hred, dlookup_dinsert_ne _ _ hpk, dlookup_derase_self]
      · intro k hk1 hk2
        rw [hred, dlookup_dinsert_ne _ _ hk1, dlookup_derase_ne _ hk2]
  · have hred : set_cached_cube now t hours g src cache =
        dinsert (get_cache_key t hours) (PrecipCube.mk g t hours now src) cache := by
      unfold set_cached_cube
      rw [if_neg hfull]
    refine ⟨?_, ?_, ?_, ?_⟩
    · rw [hred]
      have := length_dinsert_le (get_cache_key t hours)
        (PrecipCube.mk g t hours now src) cache
      omega
    · rw [hred]
      exact dlookup_dinsert_self _ _ _
    · intro _ k hk
      rw [hred, dlookup_dinsert_ne _ _ hk]
    · intro heq
      exact absurd heq (by omega)

/-- C1 witness: the amended statement evaluated on a store into the empty
cache. -/
theorem set_cached_cube_spec_witness :
    (([] : Cache).length ≤ CACHE_MAX_SIZE) ∧
    ((set_cached_cube 0 ⟨2024, 3, 15, 6, 0⟩ 24 demo_grid "IMERG-Late" []).length ≤
        CACHE_MAX_SIZE ∧
      dlookup (get_cache_key ⟨2024, 3, 15, 6, 0⟩ 24)
          (set_cached_cube 0 ⟨2024, 3, 15, 6, 0⟩ 24 demo_grid "IMERG-Late" []) =
        some (PrecipCube.mk demo_grid ⟨2024, 3, 15, 6, 0⟩ 24 0 "IMERG-Late") ∧
      (([] : Cache).length < CACHE_MAX_SIZE →
         ∀ k, k ≠ get_cache_key ⟨2024, 3, 15, 6, 0⟩ 24 →
           dlookup k (set_cached_cube 0 ⟨2024, 3, 15, 6, 0⟩ 24 demo_grid "IMERG-Late" []) =
             dlookup k ([] : Cache)) ∧
      (([] : Cache).length = CACHE_MAX_SIZE →
         ∃ p ∈ ([] : Cache), (∀ q ∈ ([] : Cache), p.2.cached_at ≤ q.2.cached_at) ∧
           (p.1 ≠ get_cache_key ⟨2024, 3, 15, 6, 0⟩ 24 →
              dlookup p.1 (set_cached_cube 0 ⟨2024, 3, 15, 6, 0⟩ 24 demo_grid
                "IMERG-Late" []) = none) ∧
           ∀ k, k ≠ get_cache_key ⟨2024, 3, 15, 6, 0⟩ 24 → k ≠ p.1 →
             dlookup k (set_cached_cube 0 ⟨2024, 3, 15, 6, 0⟩ 24 demo_grid
               "IMERG-Late" []) = dlookup k ([] : Cache))) :=
  ⟨by decide,
   set_cached_cube_spec 0 ⟨2024, 3, 15, 6, 0⟩ 24 demo_grid "IMERG-Late" [] (by decide)⟩

/-! ## Sampling lemmas (C6) -/
theorem sampleStep_eq (geo : String → Option (ℚ × ℚ)) (a : DataArray)
    (res : List (String × ℚ)) (idx : String) :
    sampleStep geo a res idx = dinsert idx (sampleValue geo a idx) res := by
  unfold sampleStep sampleValue
  cases h : geo idx with
  | none => rfl
  | some p => cases p; rfl

theorem get_precip_at_point_nonneg (a : DataArray) (lat lon : ℚ) :
    0 ≤ get_precip_at_point a lat lon := by
  unfold get_precip_at_point
  split
  · split
    · exact le_max_left 0 _
    · exact le_refl 0
    · exact le_refl 0
  · exact le_refl 0

theorem sampleValue_nonneg (geo : String → Option (ℚ × ℚ)) (a : DataArray)
    (idx : String) : 0 ≤ sampleValue geo a idx := by
  unfold sampleValue
  cases h : geo idx with
  | none => exact le_refl 0
  | some p =>
    cases p
    exact get_precip_at_point_nonneg a _ _

theorem sampleValue_of_geo_none (geo : String → Option (ℚ × ℚ)) (a : DataArray)
    (idx : String) (h : geo idx = none) : sampleValue geo a idx = 0 := by
  unfold sampleValue
  rw [h]

theorem dlookup_foldl_sampleStep_not_mem (geo : String → Option (ℚ × ℚ))
    (a : DataArray) (ids : List String) (res : List (String × ℚ)) (idx : String)
    (h : idx ∉ ids) :
    dlookup idx (ids.foldl (sampleStep geo a) res) = dlookup idx res := by
  induction ids generalizing res with
  | nil => rfl
  | cons i is ih =>
    have hni : idx ≠ i := fun he => h (he ▸ List.mem_cons_self i is)
    have hnis : idx ∉ is := fun hm => h (List.mem_cons_of_mem i hm)
    rw [List.foldl_cons, ih _ hnis, sampleStep_eq, dlookup_dinsert_ne _ _ hni]

theorem dlookup_foldl_sampleStep_mem (geo : String → Option (ℚ × ℚ))
    (a : DataArray) (ids : List String) (res : List (String × ℚ)) (idx : String)
    (h : idx ∈ ids) :
    dlookup idx (ids.foldl (sampleStep geo a) res) =
      some (sampleValue geo a idx) := by
  induction ids generalizing res with
  | nil => simp at h
  | cons i is ih =>
    rw [List.foldl_cons]
    by_cases hmem : idx ∈ is
    · exact ih _ hmem
    · have hii : idx = i := by
        rcases List.mem_cons.mp h with he | hm
        · exact he
        · exact absurd hm hmem
      subst hii
      rw [dlookup_foldl_sampleStep_not_mem geo a is _ idx hmem, sampleStep_eq,
        dlookup_dinsert_self]

theorem dlookup_eq_none_iff {α β : Type} [DecidableEq α] (k : α)
    (l : List (α × β)) : dlookup k l = none ↔ k ∉ l.map Prod.fst := by
  induction l with
  | nil => simp [dlookup]
  | cons p ps ih =>
    by_cases hp : p.1 = k
    · simp [dlookup, hp]
    · simp only [dlookup, if_neg hp, List.map_cons, List.mem_cons, ih]
      constructor
      · intro hn
        rintro (he | hm)
        · exact hp he.symm
        · exact hn hm
      · intro hn hm
        exact hn (Or.inr hm)

theorem dlookup_isSome_iff_mem_keys {α β : Type} [DecidableEq α] (k : α)
    (l : List (α × β)) : (dlookup k l).isSome ↔ k ∈ l.map Prod.fst := by
  rw [Option.isSome_iff_ne_none, ne_eq, dlookup_eq_none_iff, not_not]

theorem keys_map_replace {α β : Type} [DecidableEq α] (k : α) (v : β)
    (l : List (α × β)) :
    (l.map (fun p => if p.1 = k then (k, v) else p)).map Prod.fst =
      l.map Prod.fst := by
  induction l with
  | nil => rfl
  | cons p ps ih =>
    by_cases hp : p.1 = k
    · simp only [List.map_cons, if_pos hp, ih]
      rw [← hp]
    · simp only [List.map_cons, if_neg hp, ih]

theorem keys_dinsert_nodup {α β : Type} [DecidableEq α] (k : α) (v : β)
    (l : List (α × β)) (h : (l.map Prod.fst).Nodup) :
    ((dinsert k v l).map Prod.fst).Nodup := by
  unfold dinsert
  cases hl : dlookup k l with
  | some w => rw [keys_map_replace]; exact h
  | none =>
    have hk : k ∉ l.map Prod.fst := (dlookup_eq_none_iff k l).mp hl
    rw [List.map_append]
    simp only [List.map_cons, List.map_nil]
    rw [List.nodup_append]
    refine ⟨h, List.nodup_singleton k, ?_⟩
    intro x hx hxk
    rw [List.mem_singleton] at hxk
    exact hk (hxk ▸ hx)

theorem keys_foldl_sampleStep_nodup (geo : String → Option (ℚ × ℚ))
    (a : DataArray) (ids : List String) (res : List (String × ℚ))
    (h : (res.map Prod.fst).Nodup) :
    ((ids.foldl (sampleStep geo a) res).map Prod.fst).Nodup := by
  induction ids generalizing res with
  | nil => exact h
  | cons i is ih =>
    rw [List.foldl_cons, sampleStep_eq]
    exact ih _ (keys_dinsert_nodup i _ res h)

theorem length_foldl_sampleStep (geo : String → Option (ℚ × ℚ))
    (a : DataArray) (ids : List String) (hnd : ids.Nodup) :
    (ids.foldl (sampleStep geo a) []).length = ids.length := by
  have hkeys : ((ids.foldl (sampleStep geo a) []).map Prod.fst).Nodup :=
    keys_foldl_sampleStep_nodup geo a ids [] List.nodup_nil
  have hmem : ∀ k, k ∈ (ids.foldl (sampleStep geo a) []).map Prod.fst ↔ k ∈ ids := by
    intro k
    rw [← dlookup_isSome_iff_mem_keys]
    constructor
    · intro hs
      by_contra hk
      rw [dlookup_foldl_sampleStep_not_mem geo a ids [] k hk] at hs
      simp [dlookup] at hs
    · intro hk
      rw [dlookup_foldl_sampleStep_mem geo a ids [] k hk]
      rfl
  have hfin : ((ids.foldl (sampleStep geo a) []).map Prod.fst).toFinset =
      ids.toFinset := by
    apply Finset.ext
    intro k
    simp only [List.mem_toFinset]
    exact hmem k
  calc (ids.foldl (sampleStep geo a) []).length
      = ((ids.foldl (sampleStep geo a) []).map Prod.fst).length := by
        rw [List.length_map]
    _ = ((ids.foldl (sampleStep geo a) []).map Prod.fst).toFinset.card :=
        (List.toFinset_card_of_nodup hkeys).symm
    _ = ids.toFinset.card := by rw [hfin]
    _ = ids.length := List.toFinset_card_of_nodup hnd

/-- C6: sampling any grid at a non-empty list of distinct valid cell
identifiers returns one entry per identifier — never fewer — with every
returned value non-negative, and any identifier whose per-point extraction
fails (centroid resolution raising) mapped to 0.0. -/
theorem sample_precip_for_h3_spec (geo : String → Option (ℚ × ℚ))
    (a : DataArray) (ids : List String) (hne : ids ≠ []) (hnd : ids.Nodup) :
    (sample_precip_for_h3 geo a ids).length = ids.length ∧
    (∀ idx ∈ ids, ∃ v, dlookup idx (sample_precip_for_h3 geo a ids) = some v ∧ 0 ≤ v) ∧
    (∀ idx ∈ ids, geo idx = none →
       dlookup idx (sample_precip_for_h3 geo a ids) = some 0) := by
  have hform : sample_precip_for_h3 geo a ids = ids.foldl (sampleStep geo a) [] := by
    unfold sample_precip_for_h3
    rw [if_neg (by simpa [List.isEmpty_iff] using hne)]
  rw [hform]
  refine ⟨length_foldl_sampleStep geo a ids hnd, ?_, ?_⟩
  · intro idx hidx
    exact ⟨sampleValue geo a idx,
      dlookup_foldl_sampleStep_mem geo a ids [] idx hidx,
      sampleValue_nonneg geo a idx⟩
  · intro idx hidx hgeo
    rw [dlookup_foldl_sampleStep_mem geo a ids [] idx hidx,
      sampleValue_of_geo_none geo a idx hgeo]

/-- C6 witness: the statement evaluated on the two-cell batch ["a", "b"],
where "b" fails resolution. -/
theorem sample_precip_for_h3_spec_witness :
    ((["a", "b"] : List String) ≠ [] ∧ (["a", "b"] : List String).Nodup) ∧
    ((sample_precip_for_h3 geoW gridW ["a", "b"]).length =
        (["a", "b"] : List String).length ∧
     (∀ idx ∈ (["a", "b"] : List String),
        ∃ v, dlookup idx (sample_precip_for_h3 geoW gridW ["a", "b"]) = some v ∧ 0 ≤ v) ∧
     (∀ idx ∈ (["a", "b"] : List String), geoW idx = none →
        dlookup idx (sample_precip_for_h3 geoW gridW ["a", "b"]) = some 0)) :=
  ⟨⟨by decide, by decide⟩,
   sample_precip_for_h3_spec geoW gridW ["a", "b"] (by decide) (by decide)⟩

theorem mem_zipWith {α β γ : Type} {f : α → β → γ} {c : γ} :
    ∀ {as : List α} {bs : List β}, c ∈ List.zipWith f as bs →
      ∃ x ∈ as, ∃ y ∈ bs, c = f x y := by
  intro as
  induction as with
  | nil => intro bs h; simp at h
  | cons a as ih =>
    intro bs h
    cases bs with
    | nil => simp at h
    | cons b bs =>
      rw [List.zipWith_cons_cons] at h
      rcases List.mem_cons.mp h with he | hm
      · exact ⟨a, List.mem_cons_self a as, b, List.mem_cons_self b bs, he⟩
      · obtain ⟨x, hx, y, hy, he⟩ := ih hm
        exact ⟨x, List.mem_cons_of_mem a hx, y, List.mem_cons_of_mem b hy, he⟩

theorem sel_europe_nonneg {a : DataArray} (h : a.Nonneg) :
    a.sel_europe.Nonneg := by
  intro row hrow c hc
  obtain ⟨p, hp, hrow_eq⟩ := List.mem_map.mp hrow
  have hp2 : p.2 ∈ a.vals := by
    obtain ⟨p1, p2⟩ := p
    exact (List.of_mem_zip (List.mem_of_mem_filter hp)).2
  rw [← hrow_eq] at hc
  obtain ⟨q, hq, hcq⟩ := List.mem_map.mp hc
  have hq2 : q.2 ∈ p.2 := by
    obtain ⟨q1, q2⟩ := q
    exact (List.of_mem_zip (List.mem_of_mem_filter hq)).2
  rw [← hcq]
  exact h p.2 hp2 q.2 hq2

theorem scale_half_nonneg {a : DataArray} (h : a.Nonneg) :
    a.scale_half.Nonneg := by
  intro row hrow c hc
  obtain ⟨row0, hrow0, hre⟩ := List.mem_map.mp hrow
  rw [← hre] at hc
  obtain ⟨c0, hc0, hce⟩ := List.mem_map.mp hc
  have h0 : OptNonneg c0 := h row0 hrow0 c0 hc0
  rw [← hce]
  cases c0 with
  | none => exact le_refl 0
  | some x =>
    have h0x : (0 : ℚ) ≤ x := h0
    show (0 : ℚ) ≤ x * (1 / 2)
    exact mul_nonneg h0x (by norm_num)

theorem extract_amount_nonneg {ds : Dataset} (h : ds.Nonneg) {arr : DataArray}
    (he : extract_amount ds = some arr) : arr.Nonneg := by
  unfold extract_amount at he
  cases hc : ds.precipitationCal with
  | some b =>
    rw [hc] at he
    have hb : b.Nonneg := by
      have := h.1
      rw [hc] at this
      exact this
    rw [Option.some_inj] at he
    rw [← he]
    exact scale_half_nonneg (sel_europe_nonneg hb)
  | none =>
    rw [hc] at he
    cases hp : ds.precipitation with
    | some b =>
      rw [hp] at he
      have hb : b.Nonneg := by
        have := h.2
        rw [hp] at this
        exact this
      rw [Option.some_inj] at he
      rw [← he]
      exact scale_half_nonneg (sel_europe_nonneg hb)
    | none =>
      rw [hp] at he
      exact absurd he (by simp)

theorem cellAdd_nonneg {x y : Option ℚ} (hx : OptNonneg x) (hy : OptNonneg y) :
    OptNonneg (cellAdd x y) := by
  cases x with
  | none =>
    cases y with
    | none => exact le_refl 0
    | some b => exact hy
  | some a =>
    cases y with
    | none => exact hx
    | some b =>
      have hxa : (0 : ℚ) ≤ a := hx
      have hyb : (0 : ℚ) ≤ b := hy
      show (0 : ℚ) ≤ a + b
      exact add_nonneg hxa hyb

theorem valsNonneg_zipWith {acc bvals : List (List (Option ℚ))}
    (ha : ValsNonneg acc) (hb : ValsNonneg bvals) :
    ValsNonneg (List.zipWith (List.zipWith cellAdd) acc bvals) := by
  intro row hrow c hc
  obtain ⟨r1, hr1, r2, hr2, hre⟩ := mem_zipWith hrow
  rw [hre] at hc
  obtain ⟨c1, hc1, c2, hc2, hce⟩ := mem_zipWith hc
  rw [hce]
  exact cellAdd_nonneg (ha r1 hr1 c1 hc1) (hb r2 hr2 c2 hc2)

theorem sum_time_nonneg {arrays : List DataArray}
    (h : ∀ a ∈ arrays, a.Nonneg) : (sum_time arrays).Nonneg := by
  cases arrays with
  | nil => intro row hrow; simp [sum_time] at hrow
  | cons a rest =>
    have hfold : ∀ (bs : List DataArray) (acc : List (List (Option ℚ))),
        ValsNonneg acc → (∀ b ∈ bs, DataArray.Nonneg b) →
        ValsNonneg (bs.foldl
          (fun acc b => List.zipWith (List.zipWith cellAdd) acc b.vals) acc) := by
      intro bs
      induction bs with
      | nil => intro acc hacc _; exact hacc
      | cons b bs2 ih =>
        intro acc hacc hb
        rw [List.foldl_cons]
        exact ih _ (valsNonneg_zipWith hacc (hb b (List.mem_cons_self b bs2)))
          (fun x hx => hb x (List.mem_cons_of_mem b hx))
    show ValsNonneg (sum_time (a :: rest)).vals
    simp only [sum_time]
    exact hfold rest a.vals (h a (List.mem_cons_self a rest))
      (fun b hb => h b (List.mem_cons_of_mem a hb))

theorem fillna_cells {a : DataArray} (h : a.Nonneg) :
    ∀ row ∈ (a.fillna 0).vals, ∀ c ∈ row, ∃ x, c = some x ∧ 0 ≤ x := by
  intro row hrow c hc
  obtain ⟨row0, hrow0, hre⟩ := List.mem_map.mp hrow
  rw [← hre] at hc
  obtain ⟨c0, hc0, hce⟩ := List.mem_map.mp hc
  exact ⟨c0.getD 0, hce.symm, h row0 hrow0 c0 hc0⟩

theorem fillna_cells_defined (a : DataArray) (v : ℚ) :
    ∀ row ∈ (a.fillna v).vals, ∀ c ∈ row, ∃ x, c = some x := by
  intro row hrow c hc
  obtain ⟨row0, hrow0, hre⟩ := List.mem_map.mp hrow
  rw [← hre] at hc
  obtain ⟨c0, hc0, hce⟩ := List.mem_map.mp hc
  exact ⟨c0.getD v, hce.symm⟩

theorem cellAt_fillna (a : DataArray) (v : ℚ) (i j : ℕ) :
    cellAt (a.fillna v) i j = (cellAt a i j).map fun o => some (o.getD v) := by
  show ((a.vals.map fun row => row.map fun c => some (c.getD v))[i]?.bind
      fun row => row[j]?) =
    (a.vals[i]?.bind fun row => row[j]?).map fun o => some (o.getD v)
  rw [List.getElem?_map]
  cases hi : a.vals[i]? with
  | none => rfl
  | some row =>
    rw [Option.map_some', Option.some_bind, Option.some_bind, List.getElem?_map]

/-- C4 counterexample: a granule with rate -2.0 mm/hr accumulates to a grid
whose single element is -1.0 mm — a returned AccumulatedGrid with a negative
element, refuting the elementwise non-negativity claim. -/
theorem accumulate_precip_negative_counterexample :
    accumulate_precip [granule_negative] 24 =
      .ok ⟨[45], [10], [[some (-1)]]⟩ ∧ ((-1 : ℚ) < 0) := by
  constructor
  · unfold accumulate_precip
    norm_num [granule_negative, extract_amount, DataArray.sel_europe,
      DataArray.scale_half, sum_time, DataArray.fillna, cellAdd,
      LAT_MIN, LAT_MAX, LON_MIN, LON_MAX, List.filterMap_cons, List.filter_cons]
  · norm_num

/-- C4 (amended): every returned grid unconditionally contains no missing
(NaN) cell, each of its cells being the corresponding summed cell with a
missing value replaced by 0.0; and, provided every value present in the input
granules is non-negative, no element of the returned grid is negative. -/
theorem accumulate_precip_spec (datasets : List Dataset) (hours : ℤ)
    (g : DataArray) (hok : accumulate_precip datasets hours = .ok g) :
    (∀ row ∈ g.vals, ∀ c ∈ row, ∃ x, c = some x) ∧
    (∀ i j, cellAt g i j =
       (cellAt (sum_time (datasets.filterMap extract_amount)) i j).map
         fun o => some (o.getD 0)) ∧
    ((∀ ds ∈ datasets, ds.Nonneg) →
       ∀ row ∈ g.vals, ∀ c ∈ row, ∃ x, c = some x ∧ 0 ≤ x) := by
  simp only [accumulate_precip] at hok
  split at hok
  · exact absurd hok (by simp)
  · split at hok
    · exact absurd hok (by simp)
    · rw [Except.ok.injEq] at hok
      subst hok
      refine ⟨fillna_cells_defined _ 0, fun i j => cellAt_fillna _ 0 i j, ?_⟩
      intro hnn
      have harr : ∀ a ∈ datasets.filterMap extract_amount, a.Nonneg := by
        intro arr harr
        obtain ⟨ds, hds, hex⟩ := List.mem_filterMap.mp harr
        exact extract_amount_nonneg (hnn ds hds) hex
      exact fillna_cells (sum_time_nonneg harr)

/-- C4 witness: the amended statement evaluated on a single granule, the
inner non-negativity implication included. -/
theorem accumulate_precip_spec_witness :
    (accumulate_precip [granule_two] 24 = .ok ⟨[45], [10], [[some 1]]⟩) ∧
    ((∀ row ∈ (⟨[45], [10], [[some 1]]⟩ : DataArray).vals, ∀ c ∈ row,
        ∃ x, c = some x) ∧
     (∀ i j, cellAt ⟨[45], [10], [[some 1]]⟩ i j =
        (cellAt (sum_time ([granule_two].filterMap extract_amount)) i j).map
          fun o => some (o.getD 0)) ∧
     ((∀ ds ∈ [granule_two], ds.Nonneg) →
        ∀ row ∈ (⟨[45], [10], [[some 1]]⟩ : DataArray).vals, ∀ c ∈ row,
          ∃ x, c = some x ∧ 0 ≤ x)) := by
  have hok : accumulate_precip [granule_two] 24 = .ok ⟨[45], [10], [[some 1]]⟩ := by
    unfold accumulate_precip
    norm_num [granule_two, extract_amount, DataArray.sel_europe,
      DataArray.scale_half, sum_time, DataArray.fillna, cellAdd,
      LAT_MIN, LAT_MAX, LON_MIN, LON_MAX, List.filterMap_cons, List.filter_cons]
  exact ⟨hok, accumulate_precip_spec [granule_two] 24 _ hok⟩

end NasaPrecip
